import Mathlib

/-!
Verification of the Tech-Innovations-Dashboard client (src/index.tsx).

The file shallowly embeds the data model and operations of the dashboard:
the `Innovation` record, the filter engine `filterInnovations`, the derived
category list of `setupFilters`, a model of `JSON.parse`, and a functional
model of the `run` startup procedure together with the post-startup event
handlers. JavaScript strings are modelled as Lean strings; `toLowerCase`
is modelled on its ASCII fragment, matching every example in the spec.
-/

namespace TechDash

/- ## JavaScript string primitives -/

/-- Model of JavaScript `String.prototype.toLowerCase` (ASCII fragment):
lowercases each character. -/
def jsToLower (s : String) : String := ⟨s.data.map Char.toLower⟩

/-- Model of JavaScript `String.prototype.trim` (ASCII whitespace fragment):
drops leading and trailing whitespace. -/
def jsTrim (s : String) : String :=
  ⟨((s.data.dropWhile Char.isWhitespace).reverse.dropWhile
      Char.isWhitespace).reverse⟩

/-- Boolean test that `pat` is a prefix of `l` (helper for substring search). -/
def startsWithB : List Char → List Char → Bool
  | [], _ => true
  | _ :: _, [] => false
  | a :: pat, b :: l => a == b && startsWithB pat l

/-- Boolean substring search: does `pat` occur contiguously inside `l`?
Model of the containment test behind JavaScript `String.prototype.includes`. -/
def containsSub : List Char → List Char → Bool
  | [], pat => pat.isEmpty
  | a :: l, pat => startsWithB pat (a :: l) || containsSub l pat

/-- Model of JavaScript `s.includes(pat)`: `pat` occurs as a contiguous
substring of `s` (the empty pattern always matches). -/
def jsIncludes (s pat : String) : Bool := containsSub s.toList pat.toList

theorem startsWithB_iff (pat l : List Char) :
    startsWithB pat l = true ↔ pat <+: l := by
  induction pat generalizing l with
  | nil => simp [startsWithB]
  | cons a pat ih =>
    cases l with
    | nil => simp [startsWithB]
    | cons b l =>
      simp [startsWithB, List.cons_prefix_cons, ih, Bool.and_eq_true, beq_iff_eq]

theorem containsSub_iff (l pat : List Char) :
    containsSub l pat = true ↔ pat <:+: l := by
  induction l with
  | nil => simp [containsSub, List.isEmpty_iff]
  | cons a l ih =>
    simp only [containsSub, Bool.or_eq_true, startsWithB_iff, ih,
      List.infix_cons_iff]

theorem jsIncludes_iff (s pat : String) :
    jsIncludes s pat = true ↔ pat.toList <:+: s.toList :=
  containsSub_iff _ _

/- ## Record schema (src/index.tsx lines 8-15) -/

/-- One innovation entry, as in the `Innovation` interface. -/
structure Innovation where
  name : String
  description : String
  category : String
  imageQuery : String
  learnMoreUrl : String
  significance : String
deriving DecidableEq, Repr

/- ## Filter Engine (src/index.tsx `filterInnovations`, lines 113-122) -/

/-- Model of `filterInnovations(query, category)` reading the catalog
`allInnovations`, restricted to its pure core: the computation of the
`filtered` array. Mirrors the source line by line:
`normalizedQuery = query.toLowerCase().trim()`;
`activeCategory = category === 'all' ? null : category`; then
`allInnovations.filter(...)` with the query match on lowercased `name`
or `description` and the category match `!activeCategory ||
innovation.category === activeCategory`. The `!activeCategory` test is a
JavaScript truthiness check: both `null` (the `'all'` branch) and the
empty string are falsy, so neither imposes a category constraint. -/
def filterInnovations (allInnovations : List Innovation)
    (query category : String) : List Innovation :=
  let normalizedQuery := jsTrim (jsToLower query)
  let activeCategory : Option String :=
    if category == "all" then none else some category
  allInnovations.filter fun innovation =>
    let matchesQuery :=
      jsIncludes (jsToLower innovation.name) normalizedQuery ||
      jsIncludes (jsToLower innovation.description) normalizedQuery
    let matchesCategory :=
      match activeCategory with
      | none => true
      | some c => c == "" || innovation.category == c
    matchesQuery && matchesCategory

/- ## Category derivation (src/index.tsx `setupFilters`, line 82) -/

/-- One step of JavaScript `Set` construction: insert `a` at the end
unless already present. -/
def setInsert (acc : List String) (a : String) : List String :=
  if a ∈ acc then acc else acc ++ [a]

/-- Model of `Array.from(new Set(l))`: first-occurrence deduplication in
insertion order. -/
def setFromList (l : List String) : List String := l.foldl setInsert []

/-- Lexicographic comparison of character lists, as JavaScript's default
`Array.prototype.sort` comparison does on strings (code-unit order; the
code-point order shown here agrees with it on the basic plane). -/
def charListLe : List Char → List Char → Bool
  | [], _ => true
  | _ :: _, [] => false
  | a :: as, b :: bs =>
    if a < b then true else if b < a then false else charListLe as bs

/-- Lexicographic string comparison used by the default `sort()`. -/
def strLe (a b : String) : Bool := charListLe a.data b.data

/-- Model of line 82 of src/index.tsx:
`Array.from(new Set(innovations.map(i => i.category))).sort()` —
the distinct category values, sorted lexicographically. -/
def categories (innovations : List Innovation) : List String :=
  List.insertionSort (fun a b => strLe a b = true)
    (setFromList (innovations.map (·.category)))

theorem charListLe_iff (as bs : List Char) :
    charListLe as bs = true ↔ ¬ List.Lex (· < ·) bs as := by
  induction as generalizing bs with
  | nil =>
    refine iff_of_true rfl ?_
    intro h
    cases h
  | cons a as ih =>
    cases bs with
    | nil =>
      simp only [charListLe, Bool.false_eq_true, false_iff, not_not]
      exact List.Lex.nil
    | cons b bs =>
      simp only [charListLe]
      by_cases hab : a < b
      · rw [if_pos hab]
        simp only [true_iff]
        intro h
        cases h with
        | rel h' => exact absurd hab (asymm h')
        | cons h' => exact absurd hab (lt_irrefl a)
      · rw [if_neg hab]
        by_cases hba : b < a
        · rw [if_pos hba]
          simp only [Bool.false_eq_true, false_iff, not_not]
          exact List.Lex.rel hba
        · rw [if_neg hba]
          have hEq : a = b := le_antisymm (not_lt.mp hba) (not_lt.mp hab)
          subst hEq
          rw [ih bs]
          constructor
          · intro h hLex
            cases hLex with
            | rel h' => exact absurd h' (lt_irrefl a)
            | cons h' => exact h h'
          · intro h hLex
            exact h (List.Lex.cons hLex)

theorem strLe_iff (a b : String) : strLe a b = true ↔ a ≤ b := by
  show charListLe a.data b.data = true ↔ ¬ b < a
  rw [String.lt_iff_toList_lt]
  exact charListLe_iff a.data b.data

theorem mem_foldl_setInsert (l : List String) (acc : List String) (s : String) :
    s ∈ l.foldl setInsert acc ↔ s ∈ acc ∨ s ∈ l := by
  induction l generalizing acc with
  | nil => simp
  | cons a l ih =>
    simp only [List.foldl_cons, ih, setInsert, List.mem_cons]
    by_cases h : a ∈ acc
    · rw [if_pos h]
      constructor
      · tauto
      · rintro (hs | rfl | hs) <;> tauto
    · rw [if_neg h]
      simp only [List.mem_append, List.mem_singleton]
      tauto

theorem nodup_foldl_setInsert (l : List String) (acc : List String)
    (h : acc.Nodup) : (l.foldl setInsert acc).Nodup := by
  induction l generalizing acc with
  | nil => simpa
  | cons a l ih =>
    simp only [List.foldl_cons]
    apply ih
    by_cases ha : a ∈ acc <;> simp [setInsert, ha, List.nodup_append, h]

theorem nodup_setFromList (l : List String) : (setFromList l).Nodup :=
  nodup_foldl_setInsert l [] List.nodup_nil

theorem mem_setFromList (l : List String) (s : String) :
    s ∈ setFromList l ↔ s ∈ l := by
  simp [setFromList, mem_foldl_setInsert]

/- ## Sample records for concrete evaluations -/

/-- A sample record with the given name, description and category. -/
def sampleInnovation (n d c : String) : Innovation :=
  ⟨n, d, c, "chip closeup", "https://example.org/wiki", "It mattered widely."⟩

theorem jsIncludes_empty (s : String) : jsIncludes s "" = true := by
  rw [jsIncludes_iff]
  exact ⟨[], s.toList, by simp⟩

/- ## Claim theorems: Filter Engine -/

/-- C1 counterexample: at the category argument `""` the claimed iff fails.
The program's `!activeCategory` truthiness test treats the empty string as
falsy and imposes no category constraint, so the `"Medicine"` record is
included in `filterInnovations [r] "" ""` although `"" ≠ "all"` and its
category is not `""` — the claim's right-hand side is false while the
left-hand side is true. -/
theorem filterInnovations_mem_iff_counterexample :
    ¬ (sampleInnovation "CRISPR Gene Editing" "dna" "Medicine" ∈
          filterInnovations
            [sampleInnovation "CRISPR Gene Editing" "dna" "Medicine"] "" "" ↔
        sampleInnovation "CRISPR Gene Editing" "dna" "Medicine" ∈
            [sampleInnovation "CRISPR Gene Editing" "dna" "Medicine"] ∧
          ((jsTrim (jsToLower "")).toList <:+:
              (jsToLower (sampleInnovation "CRISPR Gene Editing" "dna"
                "Medicine").name).toList ∨
            (jsTrim (jsToLower "")).toList <:+:
              (jsToLower (sampleInnovation "CRISPR Gene Editing" "dna"
                "Medicine").description).toList) ∧
          (("" : String) = "all" ∨
            (sampleInnovation "CRISPR Gene Editing" "dna"
              "Medicine").category = "")) := by
  intro h
  have hmem : sampleInnovation "CRISPR Gene Editing" "dna" "Medicine" ∈
      filterInnovations
        [sampleInnovation "CRISPR Gene Editing" "dna" "Medicine"] "" "" := by
    decide
  rcases (h.mp hmem).2.2 with h1 | h2
  · exact absurd h1 (by decide)
  · exact absurd h2 (by decide)

/-- C1 (amended): a record is in the filter result iff it is in the catalog,
the trimmed lowercased query is a substring of its lowercased name or
description, and the category imposes no constraint — it is `"all"` or the
empty string, both falsy under the source's `!activeCategory` test — or
equals the record's category; a query that is empty after trimming (with
category `"all"`) keeps every record. -/
theorem filterInnovations_mem_iff :
    (∀ (catalog : List Innovation) (q c : String) (r : Innovation),
        r ∈ filterInnovations catalog q c ↔
          r ∈ catalog ∧
            ((jsTrim (jsToLower q)).toList <:+: (jsToLower r.name).toList ∨
              (jsTrim (jsToLower q)).toList <:+:
                (jsToLower r.description).toList) ∧
            (c = "all" ∨ c = "" ∨ r.category = c)) ∧
    (∀ (catalog : List Innovation) (q : String),
        jsTrim (jsToLower q) = "" →
          filterInnovations catalog q "all" = catalog) := by
  constructor
  · intro catalog q c r
    by_cases hc : c = "all"
    · subst hc
      simp [filterInnovations, List.mem_filter, jsIncludes_iff]
    · by_cases hce : c = ""
      · subst hce
        simp [filterInnovations, List.mem_filter, jsIncludes_iff]
      · simp [filterInnovations, List.mem_filter, jsIncludes_iff, hc, hce]
  · intro catalog q h
    simp [filterInnovations, h, jsIncludes_empty, List.filter_eq_self]

/-- Witness for C1: on a concrete one-record catalog, the whitespace-only
query `"   "` with category `"all"` keeps the record. -/
theorem filterInnovations_mem_iff_witness :
    filterInnovations [sampleInnovation "CRISPR Gene Editing" "dna" "Medicine"]
        "   " "all"
      = [sampleInnovation "CRISPR Gene Editing" "dna" "Medicine"] :=
  filterInnovations_mem_iff.2 _ "   " (by decide)

/-- C3: the filter result is an order-preserving subsequence (sublist) of
the catalog — it never reorders and never duplicates records. -/
theorem filterInnovations_sublist :
    ∀ (catalog : List Innovation) (q c : String),
      (filterInnovations catalog q c).Sublist catalog := by
  intro catalog q c
  exact List.filter_sublist catalog

/-- C6: filtering is idempotent — filtering the output of
`filterInnovations` again with the same query and category yields the
same sequence. -/
theorem filterInnovations_idempotent :
    ∀ (catalog : List Innovation) (q c : String),
      filterInnovations (filterInnovations catalog q c) q c
        = filterInnovations catalog q c := by
  intro catalog q c
  simp only [filterInnovations, List.filter_filter]
  congr 1
  funext innovation
  simp [Bool.and_assoc, Bool.and_self]

/-- C4: the derived category list is sorted, duplicate-free, and contains
exactly the category values present in the catalog; on the example
categories `["Space", "Energy", "Space", "AI"]` it is
`["AI", "Energy", "Space"]`. -/
theorem categories_sorted_distinct :
    (∀ catalog : List Innovation,
        (categories catalog).Sorted (· ≤ ·) ∧ (categories catalog).Nodup ∧
          ∀ s : String,
            s ∈ categories catalog ↔ s ∈ catalog.map (·.category)) ∧
    categories
        [sampleInnovation "Starship" "rocket" "Space",
          sampleInnovation "Fusion" "plasma" "Energy",
          sampleInnovation "JWST" "telescope" "Space",
          sampleInnovation "LLMs" "language models" "AI"]
      = ["AI", "Energy", "Space"] := by
  constructor
  · intro catalog
    letI : IsTrans String (fun a b => strLe a b = true) :=
      ⟨fun a b c hab hbc => (strLe_iff a c).mpr
        (le_trans ((strLe_iff a b).mp hab) ((strLe_iff b c).mp hbc))⟩
    letI : IsTotal String (fun a b => strLe a b = true) :=
      ⟨fun a b => (le_total a b).imp (strLe_iff a b).mpr (strLe_iff b a).mpr⟩
    refine ⟨?_, ?_, ?_⟩
    · exact (List.sorted_insertionSort _ _).imp fun h => (strLe_iff _ _).mp h
    · exact (List.perm_insertionSort _ _).nodup_iff.mpr (nodup_setFromList _)
    · intro s
      rw [categories, List.mem_insertionSort, mem_setFromList]
  · decide

/- ## JSON values and a model of `JSON.parse` (used at src/index.tsx line 180) -/

/-- A parsed JSON value. Numeric literals keep their lexeme: the dashboard
never computes with numbers, only stores and renders parsed values. -/
inductive Json where
  | null
  | bool (b : Bool)
  | num (lit : String)
  | str (s : String)
  | arr (elems : List Json)
  | obj (fields : List (String × Json))

/-- JSON insignificant whitespace. -/
def isJsonWs (c : Char) : Bool :=
  c == ' ' || c == '\t' || c == '\n' || c == '\r'

/-- Skip insignificant whitespace. -/
def skipWs (cs : List Char) : List Char := cs.dropWhile isJsonWs

/-- Value of a hexadecimal digit. -/
def hexVal (c : Char) : Option Nat :=
  if '0' ≤ c ∧ c ≤ '9' then some (c.toNat - '0'.toNat)
  else if 'a' ≤ c ∧ c ≤ 'f' then some (c.toNat - 'a'.toNat + 10)
  else if 'A' ≤ c ∧ c ≤ 'F' then some (c.toNat - 'A'.toNat + 10)
  else none

/-- Parse the body of a JSON string after the opening quote, handling the
JSON escape sequences and rejecting raw control characters. Returns the
decoded string and the remaining input. -/
def parseStringBody (acc : List Char) : List Char → Except String (String × List Char)
  | [] => .error "unterminated string"
  | c :: rest =>
    if c == '"' then .ok (⟨acc.reverse⟩, rest)
    else if c == '\\' then
      match rest with
      | [] => .error "unterminated escape"
      | e :: rest2 =>
        if e == '"' then parseStringBody ('"' :: acc) rest2
        else if e == '\\' then parseStringBody ('\\' :: acc) rest2
        else if e == '/' then parseStringBody ('/' :: acc) rest2
        else if e == 'b' then parseStringBody ('\x08' :: acc) rest2
        else if e == 'f' then parseStringBody ('\x0c' :: acc) rest2
        else if e == 'n' then parseStringBody ('\n' :: acc) rest2
        else if e == 'r' then parseStringBody ('\r' :: acc) rest2
        else if e == 't' then parseStringBody ('\t' :: acc) rest2
        else if e == 'u' then
          match rest2 with
          | h1 :: h2 :: h3 :: h4 :: rest3 =>
            match hexVal h1, hexVal h2, hexVal h3, hexVal h4 with
            | some x1, some x2, some x3, some x4 =>
              parseStringBody
                (Char.ofNat (((x1 * 16 + x2) * 16 + x3) * 16 + x4) :: acc) rest3
            | _, _, _, _ => .error "invalid unicode escape"
          | _ => .error "invalid unicode escape"
        else .error "invalid escape"
    else if c.toNat < 0x20 then .error "control character in string"
    else parseStringBody (c :: acc) rest

/-- Lex a JSON numeric literal (sign, integer part without leading zeros,
optional fraction and exponent), returning the lexeme and the rest. -/
def parseNumber (cs : List Char) : Except String (String × List Char) :=
  let (sign, cs1) : List Char × List Char :=
    match cs with
    | '-' :: t => (['-'], t)
    | _ => ([], cs)
  let intDigits := cs1.takeWhile Char.isDigit
  let cs2 := cs1.dropWhile Char.isDigit
  if intDigits.isEmpty then .error "invalid number"
  else if 1 < intDigits.length ∧ intDigits.head? = some '0' then
    .error "invalid number"
  else
    let (fracPart, cs3) : List Char × List Char :=
      match cs2 with
      | '.' :: t => ('.' :: t.takeWhile Char.isDigit, t.dropWhile Char.isDigit)
      | _ => ([], cs2)
    if fracPart = ['.'] then .error "invalid number"
    else
      match cs3 with
      | e :: t =>
        if e == 'e' || e == 'E' then
          let (signE, t2) : List Char × List Char :=
            match t with
            | '+' :: t2 => (['+'], t2)
            | '-' :: t2 => (['-'], t2)
            | _ => ([], t)
          let expDigits := t2.takeWhile Char.isDigit
          if expDigits.isEmpty then .error "invalid number"
          else
            .ok (⟨sign ++ intDigits ++ fracPart ++ e :: signE ++ expDigits⟩,
              t2.dropWhile Char.isDigit)
        else .ok (⟨sign ++ intDigits ++ fracPart⟩, cs3)
      | [] => .ok (⟨sign ++ intDigits ++ fracPart⟩, cs3)

mutual

/-- Parse one JSON value (fuel-indexed recursion over the nesting depth). -/
def parseValue : Nat → List Char → Except String (Json × List Char)
  | 0, _ => .error "input too deeply nested"
  | fuel + 1, cs =>
    match skipWs cs with
    | [] => .error "unexpected end of input"
    | c :: rest =>
      if c == '"' then
        match parseStringBody [] rest with
        | .error e => .error e
        | .ok (s, rest2) => .ok (.str s, rest2)
      else if c == '[' then
        match skipWs rest with
        | ']' :: rest2 => .ok (.arr [], rest2)
        | rest2 => parseArrayElems fuel rest2 []
      else if c == '{' then
        match skipWs rest with
        | '}' :: rest2 => .ok (.obj [], rest2)
        | rest2 => parseObjectFields fuel rest2 []
      else if startsWithB ['n', 'u', 'l', 'l'] (c :: rest) then
        .ok (.null, (c :: rest).drop 4)
      else if startsWithB ['t', 'r', 'u', 'e'] (c :: rest) then
        .ok (.bool true, (c :: rest).drop 4)
      else if startsWithB ['f', 'a', 'l', 's', 'e'] (c :: rest) then
        .ok (.bool false, (c :: rest).drop 5)
      else if c == '-' || c.isDigit then
        match parseNumber (c :: rest) with
        | .error e => .error e
        | .ok (lit, rest2) => .ok (.num lit, rest2)
      else .error "unexpected character"

/-- Parse the comma-separated elements of a non-empty JSON array. -/
def parseArrayElems : Nat → List Char → List Json →
    Except String (Json × List Char)
  | 0, _, _ => .error "input too deeply nested"
  | fuel + 1, cs, acc =>
    match parseValue fuel cs with
    | .error e => .error e
    | .ok (v, rest) =>
      match skipWs rest with
      | ',' :: rest2 => parseArrayElems fuel rest2 (v :: acc)
      | ']' :: rest2 => .ok (.arr (v :: acc).reverse, rest2)
      | _ => .error "expected comma or closing bracket"

/-- Parse the members of a non-empty JSON object. -/
def parseObjectFields : Nat → List Char → List (String × Json) →
    Except String (Json × List Char)
  | 0, _, _ => .error "input too deeply nested"
  | fuel + 1, cs, acc =>
    match skipWs cs with
    | '"' :: rest =>
      match parseStringBody [] rest with
      | .error e => .error e
      | .ok (key, rest2) =>
        match skipWs rest2 with
        | ':' :: rest3 =>
          match parseValue fuel rest3 with
          | .error e => .error e
          | .ok (v, rest4) =>
            match skipWs rest4 with
            | ',' :: rest5 => parseObjectFields fuel rest5 ((key, v) :: acc)
            | '}' :: rest5 => .ok (.obj ((key, v) :: acc).reverse, rest5)
            | _ => .error "expected comma or closing brace"
        | _ => .error "expected colon"
    | _ => .error "expected object key"

end

/-- Model of JavaScript `JSON.parse`: parse one value and require only
whitespace to follow. -/
def jsonParse (s : String) : Except String Json :=
  match parseValue (s.length + 1) s.data with
  | .error e => .error e
  | .ok (v, rest) =>
    if (skipWs rest).isEmpty then .ok v
    else .error "unexpected trailing characters"

/- ## JavaScript property access on parsed values -/

/-- Property access `v.key` on a parsed JSON value, as JavaScript evaluates
it: `none` models a thrown `TypeError` (property access on `null`);
`some none` models `undefined` (absent key, or a primitive receiver);
`some (some w)` is the field value, with later duplicate keys overriding
earlier ones as in `JSON.parse`. -/
def jsGetField : Json → String → Option (Option Json)
  | .null, _ => none
  | .obj fields, key =>
    some (match (fields.filter fun f => f.1 == key).getLast? with
          | some f => some f.2
          | none => none)
  | _, _ => some none

/-- Does mapping a property access over the elements of the parsed array
throw? `setupFilters` (line 82) reads `i.category` on every element, so a
`null` element raises a `TypeError`; every other value merely yields
`undefined`. The later passes (`renderGrid`, `updateSpotlight`) read
fields the same way, so they can only throw where this already throws. -/
def elemAccessThrows (elems : List Json) : Bool :=
  elems.any fun i => (jsGetField i "category").isNone

/- ## The startup procedure `run` (src/index.tsx lines 145-222) -/

/-- The observable page state driven by `run` and the catch block. -/
structure DashboardState where
  allInnovations : Json
  loaderVisible : Bool
  errorVisible : Bool
  errorText : String
  pillsBuiltFrom : Option (List Json)
  gridRenderedFrom : Option (List Json)
  spotlight : Option Json

/-- State before `run` acts: empty store (line 17), loader shown, no error,
nothing rendered. -/
def initialState : DashboardState :=
  ⟨Json.arr [], true, false, "", none, none, none⟩

/-- The fixed failure message of the catch block (line 217). -/
def riftMessage : String :=
  "We encountered a rift in the data stream. Please reload to try again."

/-- Effect of the catch block (lines 212-219): hide the loader, show the
error indicator with the fixed message; nothing else is touched. -/
def catchState (s : DashboardState) : DashboardState :=
  { s with loaderVisible := false, errorVisible := true,
           errorText := riftMessage }

/-- Functional model of `run()`, parameterized by the outcome of the awaited
`generateContent` call: a thrown error, or the response text. Mirrors the
order of the try block: `JSON.parse(response.text)` (line 180), the single
store assignment (line 181), loader hiding (line 188), `setupFilters` and
`renderGrid` (lines 190-191), the guarded spotlight call (lines 193-196);
any value thrown on the way lands in the catch block. A response that is
not an array is assigned to the store and then makes `innovations.map`
throw inside `setupFilters`; a `null` element makes the property access
throw there. -/
def runModel (outcome : Except String String) : DashboardState :=
  match outcome with
  | .error _ => catchState initialState
  | .ok text =>
    match jsonParse text with
    | .error _ => catchState initialState
    | .ok data =>
      let s1 := { initialState with allInnovations := data,
                                    loaderVisible := false }
      match data with
      | .arr elems =>
        if elemAccessThrows elems then catchState s1
        else
          let s2 := { s1 with pillsBuiltFrom := some elems,
                              gridRenderedFrom := some elems }
          if 0 < elems.length then { s2 with spotlight := elems.head? }
          else s2
      | _ => catchState s1

/- ## Post-startup user events -/

/-- The user events wired up by `run` and `setupFilters`/`createCard`:
typing in the search field (line 199), clicking a category pill (line 93)
or the "all" pill (line 103), activating a card (line 54), and a keydown
(line 205). `activeIsSearch` records whether the search field is the
focused element when the key is pressed. -/
inductive UiEvent where
  | searchInput (text : String)
  | pillClick (category : String)
  | allPillClick
  | cardClick (innovation : Innovation)
  | keydown (key : String) (activeIsSearch : Bool)
deriving DecidableEq, Repr

/-- The session state after a successful acquisition of a well-formed
catalog: the read-only store, the current query text and active category,
and the rendered surfaces. -/
structure SessionState where
  catalog : List Innovation
  searchValue : String
  activeCategory : String
  grid : List Innovation
  noResultsVisible : Bool
  spotlight : Option Innovation
  searchFocused : Bool
deriving DecidableEq, Repr

/-- `filterInnovations(query, cat)` followed by `renderGrid` and the
"no results" toggle (lines 113-130). -/
def filterPass (s : SessionState) (query cat : String) : SessionState :=
  let filtered := filterInnovations s.catalog query cat
  { s with grid := filtered, noResultsVisible := filtered.isEmpty }

/-- One user event, as handled by the listeners in src/index.tsx. -/
def stepEvent (s : SessionState) : UiEvent → SessionState
  | .searchInput t =>
    filterPass { s with searchValue := t } t s.activeCategory
  | .pillClick c =>
    filterPass { s with activeCategory := c } s.searchValue c
  | .allPillClick =>
    filterPass { s with activeCategory := "all" } s.searchValue "all"
  | .cardClick innovation => { s with spotlight := some innovation }
  | .keydown key activeIsSearch =>
    if key == "/" && !activeIsSearch then { s with searchFocused := true }
    else s

/-- Is the event a card activation? -/
def UiEvent.isCardClick : UiEvent → Bool
  | .cardClick _ => true
  | _ => false

/- ## Keyboard shortcut model -/

/-- Modelled from the spec: the document's element kinds (index.html is not
under src/). Per the spec the interactive surfaces are the free-text
search field — the only text-entry element on the page — the category
filter pills, the grid cards with their reference links, and the page
body. -/
inductive DomElem where
  | searchField
  | filterPill (category : String)
  | card (index : Nat)
  | link (url : String)
  | body
deriving DecidableEq, Repr

/-- Is the element a text field? Only the search input is. -/
def DomElem.isTextField : DomElem → Bool
  | .searchField => true
  | _ => false

/-- Model of the keydown handler (src/index.tsx lines 205-210): the handler
focuses the search field exactly when the key is `"/"` and
`document.activeElement` is not the search input. For a keydown event the
event target is the focused element, so the handler's check receives the
event target. -/
def slashKeyFocuses (key : String) (activeElement : DomElem) : Bool :=
  key == "/" && !(activeElement == DomElem.searchField)

/- ## Claim theorems: startup, errors, events -/

/-- C5: if the acquisition call throws, the end state is exactly: loader
hidden, error indicator shown with the fixed message, the store still the
initial empty array, and no pills, grid or spotlight produced. -/
theorem run_failure_atomic :
    ∀ e : String,
      runModel (Except.error e) =
        { allInnovations := Json.arr [], loaderVisible := false,
          errorVisible := true, errorText := riftMessage,
          pillsBuiltFrom := none, gridRenderedFrom := none,
          spotlight := none } :=
  fun _ => rfl

/-- C2 counterexample: the response `"[]"` (an empty result sequence) and a
response whose record misses five of the six required fields are both
admitted into the Catalog Store with no error signalled — they do not
reach the catch branch. -/
theorem run_admits_empty_and_partial :
    ((runModel (Except.ok "[]")).errorVisible = false ∧
      (runModel (Except.ok "[]")).allInnovations = Json.arr []) ∧
    ((runModel (Except.ok "[\x7b\"name\": \"X\"\x7d]")).errorVisible = false ∧
      (runModel (Except.ok "[\x7b\"name\": \"X\"\x7d]")).allInnovations
        = Json.arr [Json.obj [("name", Json.str "X")]]) :=
  ⟨⟨rfl, rfl⟩, ⟨rfl, rfl⟩⟩

/-- C2 (amended): a thrown service call and a non-JSON response do reach the
catch branch; but any response that parses is assigned to the store
unvalidated, and a parsed array whose elements are not `null` — in
particular the empty array or records missing required fields — is
admitted with no error signalled. -/
theorem run_error_taxonomy :
    (∀ e, runModel (Except.error e) = catchState initialState) ∧
    (∀ txt msg, jsonParse txt = Except.error msg →
        runModel (Except.ok txt) = catchState initialState) ∧
    (∀ txt elems, jsonParse txt = Except.ok (Json.arr elems) →
        elemAccessThrows elems = false →
        (runModel (Except.ok txt)).allInnovations = Json.arr elems ∧
          (runModel (Except.ok txt)).errorVisible = false) := by
  refine ⟨fun e => rfl, fun txt msg h => by simp [runModel, h], ?_⟩
  intro txt elems h hn
  refine ⟨?_, ?_⟩ <;>
    simp only [runModel, h, hn, Bool.false_eq_true, if_false] <;>
    split <;> rfl

/-- Witness for C2 (amended): the non-JSON response `"oops"` lands in the
catch block, while the empty-array response is admitted without error. -/
theorem run_error_taxonomy_witness :
    runModel (Except.ok "oops") = catchState initialState ∧
    ((runModel (Except.ok "[]")).allInnovations = Json.arr [] ∧
      (runModel (Except.ok "[]")).errorVisible = false) :=
  ⟨run_error_taxonomy.2.1 "oops" "unexpected character" rfl,
    run_error_taxonomy.2.2 "[]" [] rfl rfl⟩

/-- C8: the Catalog Store is written exactly once — after a successful
parse, `runModel` leaves exactly the parsed response in `allInnovations`
— and no later pass mutates it: every sequence of user events preserves
the catalog. -/
theorem catalog_write_once :
    (∀ txt v, jsonParse txt = Except.ok v →
        (runModel (Except.ok txt)).allInnovations = v) ∧
    (∀ (s : SessionState) (events : List UiEvent),
        (events.foldl stepEvent s).catalog = s.catalog) := by
  constructor
  · intro txt v h
    cases v <;> simp only [runModel, h, catchState]
    split
    · rfl
    · split <;> rfl
  · intro s events
    induction events generalizing s with
    | nil => rfl
    | cons e es ih =>
      rw [List.foldl_cons, ih]
      cases e <;> simp [stepEvent, filterPass]
      split <;> rfl

/-- Witness for C8: the response `"null"` parses, and exactly that parsed
value ends up in the store. -/
theorem catalog_write_once_witness :
    (runModel (Except.ok "null")).allInnovations = Json.null :=
  catalog_write_once.1 "null" Json.null rfl

/-- C7: after a successful acquisition whose response parses to a non-empty
array (with no `null` element, so the render passes do not throw), the
spotlight holds the first record; and among the user events only a card
activation changes the spotlight. -/
theorem spotlight_first_then_cards :
    (∀ txt elems, jsonParse txt = Except.ok (Json.arr elems) →
        elemAccessThrows elems = false → elems ≠ [] →
        (runModel (Except.ok txt)).spotlight = elems.head?) ∧
    (∀ (s : SessionState) (e : UiEvent), e.isCardClick = false →
        (stepEvent s e).spotlight = s.spotlight) := by
  constructor
  · intro txt elems h hn hne
    simp only [runModel, h, hn, Bool.false_eq_true, if_false]
    rw [if_pos (List.length_pos.mpr hne)]
  · intro s e he
    cases e <;> simp [stepEvent, filterPass]
    · simp [UiEvent.isCardClick] at he
    · split <;> rfl

/-- A well-formed one-record response text used as a concrete witness. -/
def oneRecordJson : String :=
  "[\x7b\"name\": \"Printing Press\", \"description\": \"movable type\", " ++
    "\"category\": \"Communication\", \"imageQuery\": \"press\", " ++
    "\"learnMoreUrl\": \"https://example.org/pp\", " ++
    "\"significance\": \"Mass literacy.\"\x7d]"

/-- The parsed record of `oneRecordJson`. -/
def oneRecordVal : Json :=
  Json.obj [("name", Json.str "Printing Press"),
    ("description", Json.str "movable type"),
    ("category", Json.str "Communication"),
    ("imageQuery", Json.str "press"),
    ("learnMoreUrl", Json.str "https://example.org/pp"),
    ("significance", Json.str "Mass literacy.")]

set_option maxRecDepth 4000 in
/-- Witness for C7: a concrete well-formed one-record acquisition puts that
record in the spotlight, and a concrete search-input event leaves the
spotlight alone. -/
theorem spotlight_first_then_cards_witness :
    (runModel (Except.ok oneRecordJson)).spotlight = some oneRecordVal ∧
    (stepEvent ⟨[], "", "all", [], false, none, false⟩
        (UiEvent.searchInput "x")).spotlight = none :=
  ⟨spotlight_first_then_cards.1 oneRecordJson [oneRecordVal] rfl rfl
      (List.cons_ne_nil _ _),
    spotlight_first_then_cards.2 _ _ rfl⟩

/-- C10: a successful acquisition returning the empty array terminates
normally: loader hidden, no error, the empty store admitted, pills and
grid built from the empty list, and the guarded spotlight call skipped. -/
theorem run_empty_no_spotlight :
    ∀ txt, jsonParse txt = Except.ok (Json.arr []) →
      runModel (Except.ok txt) =
        { allInnovations := Json.arr [], loaderVisible := false,
          errorVisible := false, errorText := "",
          pillsBuiltFrom := some [], gridRenderedFrom := some [],
          spotlight := none } := by
  intro txt h
  simp only [runModel, h]
  rfl

/-- Witness for C10: the concrete response `"[]"`. -/
theorem run_empty_no_spotlight_witness :
    runModel (Except.ok "[]") =
      { allInnovations := Json.arr [], loaderVisible := false,
        errorVisible := false, errorText := "",
        pillsBuiltFrom := some [], gridRenderedFrom := some [],
        spotlight := none } :=
  run_empty_no_spotlight "[]" rfl

/-- C9: on a `/` keydown the handler focuses the search field iff the
focused target is not the search field and is not a text field (the search
input being the page's only text field); any other key never focuses. -/
theorem slash_focus_iff :
    (∀ target : DomElem,
        slashKeyFocuses "/" target = true ↔
          target ≠ DomElem.searchField ∧ target.isTextField = false) ∧
    (∀ (key : String) (target : DomElem), key ≠ "/" →
        slashKeyFocuses key target = false) := by
  constructor
  · intro target
    cases target <;> simp [slashKeyFocuses, DomElem.isTextField]
  · intro key target hk
    simp [slashKeyFocuses, hk]

/-- Witness for C9: the key `"a"` pressed while the body is focused does
not move focus, and the `/` case is instantiated at the body element. -/
theorem slash_focus_iff_witness :
    slashKeyFocuses "a" DomElem.body = false ∧
    (slashKeyFocuses "/" DomElem.body = true ↔
      DomElem.body ≠ DomElem.searchField ∧
        DomElem.isTextField DomElem.body = false) :=
  ⟨slash_focus_iff.2 "a" DomElem.body (by decide),
    slash_focus_iff.1 DomElem.body⟩

end TechDash
